import Mathlib

/-!
Verification development for the connection pool and transaction manager of
simple_db_pool (src/pool.py, with the raw session class in src/base_db.py).

Shallow embedding conventions:

* A raw session (base_db.Connection) is a `Sess` value: a numeric identity
  `sid` (Python object identity; `x in list` on Connection objects compares
  by identity), a liveness bit `alive` reporting what the external driver
  probes (db.ping / verify_ping) would answer, and the `allow_ping` policy
  flag. The driver calls begin/commit/rollback/close on the session are
  recorded as `Ev` events in an event log threaded through the functions.
* The pool (ConnectionPool) is a `PoolState`: pool_size, the active set
  _connections, the FIFO _idle_connections, the pool_close flag, plus the
  external world of the session factory: `nextSid` numbers the fresh session
  the factory would build next, and factoryOk / factoryAlive /
  factoryAllowPing prescribe whether ConnectionPool._create succeeds and
  which session it produces.
* A checkout handle (_Connector) is a `Conn`: its session, the _closed flag,
  transaction_level and is_transaction.
* Python exceptions are surfaced as `Err` values; every function returns the
  mutated state together with the normal result or the escaping exception,
  matching the fact that Python keeps partial mutations when an exception
  propagates.
-/

/-- Exceptions that the embedded code can raise. `factoryError` stands for an
arbitrary exception escaping ConnectionPool._create; `pyTypeError` stands for
the TypeError the interpreter raises when a required positional argument is
missing at a call site. -/
inductive Err where
  | connectionClosed
  | transactionAbort
  | factoryError
  | pyTypeError
deriving DecidableEq

/-- Driver-level side effects issued to a raw session, keyed by the session
identity: db.begin, db.commit, db.rollback, and a real close of the
connection. -/
inductive Ev where
  | evBegin (sid : Nat)
  | evCommit (sid : Nat)
  | evRollback (sid : Nat)
  | evClose (sid : Nat)
deriving DecidableEq

/-- A raw session (base_db.Connection): identity, liveness as reported by the
driver probe, and the allow_ping policy flag. -/
structure Sess where
  sid : Nat
  alive : Bool
  allow_ping : Bool
deriving DecidableEq

/-- A checkout handle (_Connector.__init__): self.conn, self._closed = False,
self.transaction_level = 0 incremented once when is_transaction is set. In
pool.py self.conn is never reassigned and never None, so it is embedded as a
plain `Sess`. -/
structure Conn where
  conn : Sess
  closed : Bool
  transaction_level : Nat
  is_transaction : Bool
deriving DecidableEq

/-- Property _Connector.in_transaction: transaction_level > 0. -/
def Conn.in_transaction (c : Conn) : Bool :=
  decide (c.transaction_level > 0)

/-- ConnectionPool state (ConnectionPool.__init__): pool_size, _connections,
_idle_connections, pool_close, together with the factory world (see the file
header). -/
structure PoolState where
  pool_size : Nat
  connections : List Sess
  idle_connections : List Sess
  pool_close : Bool
  nextSid : Nat
  factoryOk : Bool
  factoryAlive : Bool
  factoryAllowPing : Bool
deriving DecidableEq

/-- ConnectionPool._create: builds a fresh Connection from the stored
parameters. The external outcome is prescribed by the factory world fields:
when factoryOk is false the constructor raises (propagated by the callers);
otherwise a fresh session with the next identity is produced. -/
def ConnectionPool._create (st : PoolState) : PoolState × Except Err Sess :=
  if st.factoryOk then
    ({ st with nextSid := st.nextSid + 1 },
      Except.ok { sid := st.nextSid, alive := st.factoryAlive,
                  allow_ping := st.factoryAllowPing })
  else (st, Except.error Err.factoryError)

/-- ConnectionPool._ping(conn, reconnect=True). The liveness probe of both
branches (conn.db.verify_ping for allow_ping = False, conn.db.ping otherwise)
is embedded as reading conn.alive; the verify_ping failure branch additionally
closes conn.db, recorded as an evClose event. If the session is not alive:
with reconnect, a replacement is built via _create (its exception propagates),
and if the dead session is a member of _connections it is swapped out for the
replacement (remove, then append); the replacement is returned. Without
reconnect, ConnectionClosedError is raised. A live session is returned
unchanged. -/
def ConnectionPool._ping (st : PoolState) (evs : List Ev) (conn : Sess)
    (reconnect : Bool) : PoolState × List Ev × Except Err Sess :=
  let alive := conn.alive
  let evs1 := if conn.allow_ping = false && conn.alive = false
              then evs ++ [Ev.evClose conn.sid] else evs
  if alive = false then
    if reconnect then
      match ConnectionPool._create st with
      | (st1, Except.error e) => (st1, evs1, Except.error e)
      | (st1, Except.ok newConn) =>
          if conn ∈ st1.connections then
            ({ st1 with connections := (st1.connections.erase conn) ++ [newConn] },
              evs1, Except.ok newConn)
          else (st1, evs1, Except.ok newConn)
    else (st, evs1, Except.error Err.connectionClosed)
  else (st, evs1, Except.ok conn)

/-- Recursion core of ConnectionPool.get_idle_connect. The Python method pops
the head of _idle_connections, pings it with reconnect allowed, and on any
exception from _ping recurses on the shrunken queue; its recursion depth is
bounded by the length of the idle queue (each round pops exactly one entry and
_ping never touches the queue), so the embedding runs it on a fuel argument
instantiated with that length. Note the source line writes
underscore = self._ping(conn): the replacement session returned by _ping is
discarded and the originally popped session is what the method returns. -/
def ConnectionPool.get_idle_go :
    Nat → PoolState → List Ev → PoolState × List Ev × Option Sess
  | 0, st, evs => (st, evs, none)
  | Nat.succ n, st, evs =>
    match st.idle_connections with
    | [] => (st, evs, none)
    | conn :: rest =>
      let st1 := { st with idle_connections := rest }
      match ConnectionPool._ping st1 evs conn true with
      | (st2, evs2, Except.error _) => ConnectionPool.get_idle_go n st2 evs2
      | (st2, evs2, Except.ok _) => (st2, evs2, some conn)

/-- ConnectionPool.get_idle_connect: returns None when the idle queue is
empty, otherwise pops and ping-checks entries as described in get_idle_go. -/
def ConnectionPool.get_idle_connect (st : PoolState) (evs : List Ev) :
    PoolState × List Ev × Option Sess :=
  ConnectionPool.get_idle_go st.idle_connections.length st evs

/-- ConnectionPool.connect(is_transaction=False): if the idle queue is
nonempty, try get_idle_connect and wrap a returned session in a new
_Connector. Otherwise (or when every idle entry was consumed without a
result) build a session via _create (exceptions propagate), append it to
_connections only while the active set is below pool_size, and wrap it. -/
def ConnectionPool.connect (st : PoolState) (evs : List Ev)
    (is_transaction : Bool) : PoolState × List Ev × Except Err Conn :=
  let idleTry :=
    if st.idle_connections.isEmpty then (st, evs, none)
    else ConnectionPool.get_idle_connect st evs
  match idleTry with
  | (st1, evs1, some conn) =>
      (st1, evs1, Except.ok
        { conn := conn, closed := false,
          transaction_level := if is_transaction then 1 else 0,
          is_transaction := is_transaction })
  | (st1, evs1, none) =>
      match ConnectionPool._create st1 with
      | (st2, Except.error e) => (st2, evs1, Except.error e)
      | (st2, Except.ok conn) =>
          let st3 :=
            if st2.connections.length < st2.pool_size
            then { st2 with connections := st2.connections ++ [conn] }
            else st2
          (st3, evs1, Except.ok
            { conn := conn, closed := false,
              transaction_level := if is_transaction then 1 else 0,
              is_transaction := is_transaction })

/-- ConnectionPool.clean_pool: set pool_close, close every idle session for
real, then clear the idle queue and the active set. -/
def ConnectionPool.clean_pool (st : PoolState) (evs : List Ev) :
    PoolState × List Ev :=
  ({ st with pool_close := true, idle_connections := [], connections := [] },
    evs ++ st.idle_connections.map (fun s => Ev.evClose s.sid))

/-- Method _Connector.close: while in_transaction it is a no-op returning None.
Otherwise it marks the handle closed; if the session is not a member of the
active set of the pool it is closed for real (True), else it is appended to
the idle queue (False). -/
def Connector.close (st : PoolState) (evs : List Ev) (c : Conn) :
    PoolState × List Ev × Conn × Option Bool :=
  if c.in_transaction then (st, evs, c, none)
  else
    let c1 := { c with closed := true }
    if c1.conn ∈ st.connections then
      ({ st with idle_connections := st.idle_connections ++ [c1.conn] },
        evs, c1, some false)
    else
      (st, evs ++ [Ev.evClose c1.conn.sid], c1, some true)

/-- Method _Connector.__getattr__(name): raises ConnectionClosedError when the
handle is closed; otherwise (self.conn is always truthy in pool.py) forwards
the attribute access to the raw session, embedded as the pair of the session
and the requested attribute name, on which the caller would then operate. -/
def Connector.getattrFwd (c : Conn) (name : String) :
    Except Err (Sess × String) :=
  if c.closed then Except.error Err.connectionClosed
  else Except.ok (c.conn, name)

/-- ConnectionPool._end_transaction(using_conn) as a context manager wrapping
a body: entering it raises TransactionAbortError when transaction_level < 1,
otherwise decrements transaction_level and runs the body; the finally block
closes the handle and clears is_transaction when the level dropped below 1,
whether or not the body raised. -/
def ConnectionPool._end_transaction (st : PoolState) (evs : List Ev) (c : Conn)
    (body : PoolState → List Ev → Conn → PoolState × List Ev × Conn × Option Err) :
    PoolState × List Ev × Conn × Option Err :=
  if c.transaction_level < 1 then (st, evs, c, some Err.transactionAbort)
  else
    let c1 := { c with transaction_level := c.transaction_level - 1 }
    match body st evs c1 with
    | (st2, evs2, c2, e) =>
      if c2.transaction_level < 1 then
        match Connector.close st2 evs2 c2 with
        | (st3, evs3, c3, _) => (st3, evs3, { c3 with is_transaction := false }, e)
      else (st2, evs2, c2, e)

/-- ConnectionPool.commit_transaction(using_conn): inside _end_transaction,
return without touching the session when the (already decremented)
transaction_level is still above 1; otherwise issue a real commit on
conn.db. The OperationalError branch of the source concerns a commit failing
at the server, an external outcome not exercised here: the embedded driver
commit succeeds. -/
def ConnectionPool.commit_transaction (st : PoolState) (evs : List Ev)
    (c : Conn) : PoolState × List Ev × Conn × Option Err :=
  ConnectionPool._end_transaction st evs c (fun st1 evs1 c1 =>
    if c1.transaction_level > 1 then (st1, evs1, c1, none)
    else (st1, evs1 ++ [Ev.evCommit c1.conn.sid], c1, none))

/-- ConnectionPool.rollback_transaction(using_conn): inside _end_transaction,
issue a real rollback (using_conn.db.rollback reaches the session through
_Connector.__getattr__, so a closed handle would raise ConnectionClosedError;
conn.db is taken as present, matching a live transaction session); then, when
the (already decremented) transaction_level is still above 1, force the level
to 0 and raise TransactionAbortError. -/
def ConnectionPool.rollback_transaction (st : PoolState) (evs : List Ev)
    (c : Conn) : PoolState × List Ev × Conn × Option Err :=
  ConnectionPool._end_transaction st evs c (fun st1 evs1 c1 =>
    if c1.closed then (st1, evs1, c1, some Err.connectionClosed)
    else
      let evs2 := evs1 ++ [Ev.evRollback c1.conn.sid]
      if c1.transaction_level > 1 then
        (st1, evs2, { c1 with transaction_level := 0 }, some Err.transactionAbort)
      else (st1, evs2, c1, none))

/-- Entry half of ConnectionPool.transaction_context (the code that runs up
to the yield). With no handle given: connect(is_transaction=True). With an
existing handle: self._ping(using_conn.conn) is called with the default
reconnect=True and its result is discarded (exceptions propagate), then the
transaction_level of the handle is incremented. Finally
using_conn.conn.db.begin() is issued. -/
def ConnectionPool.transaction_context_enter (st : PoolState) (evs : List Ev)
    (using_conn : Option Conn) : PoolState × List Ev × Except Err Conn :=
  match using_conn with
  | none =>
    match ConnectionPool.connect st evs true with
    | (st1, evs1, Except.error e) => (st1, evs1, Except.error e)
    | (st1, evs1, Except.ok c) =>
        (st1, evs1 ++ [Ev.evBegin c.conn.sid], Except.ok c)
  | some c =>
    match ConnectionPool._ping st evs c.conn true with
    | (st1, evs1, Except.error e) => (st1, evs1, Except.error e)
    | (st1, evs1, Except.ok _) =>
        let c1 := { c with transaction_level := c.transaction_level + 1 }
        (st1, evs1 ++ [Ev.evBegin c1.conn.sid], Except.ok c1)

/-- Method _Connector.__exit__(type, value, traceback): when the handle is
in_transaction and an exception is active, the source executes
self._pool.rollback_transaction() with no argument, although
ConnectionPool.rollback_transaction requires the positional using_conn
parameter; the interpreter therefore raises TypeError at that call, before
self.close() is reached. Otherwise close is invoked. -/
def Connector.exitScope (st : PoolState) (evs : List Ev) (c : Conn)
    (excActive : Bool) : PoolState × List Ev × Conn × Option Err :=
  if c.in_transaction && excActive then
    (st, evs, c, some Err.pyTypeError)
  else
    match Connector.close st evs c with
    | (st1, evs1, c1, _) => (st1, evs1, c1, none)

/-- Number of real commits issued to the driver in an event log. -/
def countCommits (evs : List Ev) : Nat :=
  (evs.filter fun e => match e with | Ev.evCommit _ => true | _ => false).length

/-- Number of real rollbacks issued to the driver in an event log. -/
def countRollbacks (evs : List Ev) : Nat :=
  (evs.filter fun e => match e with | Ev.evRollback _ => true | _ => false).length

/-! ## Operation traces over one pool

A trace drives one ConnectionPool through its public operations. Handles
returned by connect are kept in creation order and addressed by index, so a
trace can release the same handle more than once, exactly as Python callers
holding a _Connector reference can. Each factory-using operation carries the
external factory outcome for that call (whether _create succeeds and which
liveness / allow_ping the produced session has), so a trace also quantifies
over the behavior of the external driver. -/

/-- One public pool operation in a trace. -/
inductive Op where
  | opConnect (is_transaction fOk fAlive fAP : Bool)
  | opClose (i : Nat)
  | opPing (s : Sess) (reconnect fOk fAlive fAP : Bool)
  | opClean
deriving DecidableEq

/-- Pool state together with every handle handed out so far. -/
structure SysState where
  pool : PoolState
  handles : List Conn
deriving DecidableEq

/-- Overwrite the factory world fields for the next external call. -/
def setWorld (st : PoolState) (fOk fAlive fAP : Bool) : PoolState :=
  { st with factoryOk := fOk, factoryAlive := fAlive, factoryAllowPing := fAP }

/-- Step semantics of a trace operation. Event logs are not accumulated
across steps (no trace claim is about them). A connect that raises keeps the
pool mutations and hands out no handle; a close on an index never handed out
is a no-op. -/
def stepOp (s : SysState) (op : Op) : SysState :=
  match op with
  | Op.opConnect it fOk fAlive fAP =>
    match ConnectionPool.connect (setWorld s.pool fOk fAlive fAP) [] it with
    | (st1, _, Except.ok c) => { pool := st1, handles := s.handles ++ [c] }
    | (st1, _, Except.error _) => { pool := st1, handles := s.handles }
  | Op.opClose i =>
    match s.handles.get? i with
    | some c =>
      match Connector.close s.pool [] c with
      | (st1, _, c1, _) => { pool := st1, handles := s.handles.set i c1 }
    | none => s
  | Op.opPing sess r fOk fAlive fAP =>
    match ConnectionPool._ping (setWorld s.pool fOk fAlive fAP) [] sess r with
    | (st1, _, _) => { pool := st1, handles := s.handles }
  | Op.opClean => { pool := (ConnectionPool.clean_pool s.pool []).1, handles := s.handles }

/-- Run a trace. -/
def runOps (s : SysState) (ops : List Op) : SysState :=
  ops.foldl stepOp s

/-- A freshly constructed pool of the given capacity. -/
def initSys (n : Nat) : SysState :=
  { pool := { pool_size := n, connections := [], idle_connections := [],
              pool_close := false, nextSid := 0, factoryOk := true,
              factoryAlive := true, factoryAllowPing := true },
    handles := [] }

/-- A close operation is well-formed when it addresses an existing handle
that is not yet closed (the discipline of releasing each handle at most
once). All other operations are always well-formed. -/
def okClose (s : SysState) : Op → Bool
  | Op.opClose i =>
    match s.handles.get? i with
    | some c => !c.closed
    | none => false
  | _ => true

/-- A trace is well-formed when every close along it is well-formed in the
state where it runs. -/
def okOps (s : SysState) : List Op → Bool
  | [] => true
  | op :: ops => okClose s op && okOps (stepOp s op) ops

/-! ## Concrete transaction scenarios

A fresh pool of capacity 10 with a live factory; one transaction handle is
opened via transaction_context and a second frame is nested on it, giving
transaction_level 2, the situation of the nesting claims. -/

/-- Fallback handle used to destructure an Except that is known to be ok. -/
def dummyConn : Conn :=
  { conn := { sid := 0, alive := false, allow_ping := true },
    closed := true, transaction_level := 0, is_transaction := false }

/-- Extract the handle from a successful connect result. -/
def orElseConn (r : Except Err Conn) (d : Conn) : Conn :=
  match r with
  | Except.ok c => c
  | Except.error _ => d

/-- Pool for the transaction scenarios. -/
def txPool0 : PoolState := (initSys 10).pool

/-- Outermost transaction_context entry (no handle given). -/
def txStep1 : PoolState × List Ev × Except Err Conn :=
  ConnectionPool.transaction_context_enter txPool0 [] none

/-- Handle after the outermost entry (transaction_level 1). -/
def txH1 : Conn := orElseConn txStep1.2.2 dummyConn

/-- Nested transaction_context entry on the same handle. -/
def txStep2 : PoolState × List Ev × Except Err Conn :=
  ConnectionPool.transaction_context_enter txStep1.1 txStep1.2.1 (some txH1)

/-- Handle after the nested entry (transaction_level 2). -/
def txH2 : Conn := orElseConn txStep2.2.2 dummyConn

/-- First of the two commit_transaction calls (the inner frame exiting). -/
def txCommit1 : PoolState × List Ev × Conn × Option Err :=
  ConnectionPool.commit_transaction txStep2.1 txStep2.2.1 txH2

/-- Second commit_transaction call (the outer frame exiting). -/
def txCommit2 : PoolState × List Ev × Conn × Option Err :=
  ConnectionPool.commit_transaction txCommit1.1 txCommit1.2.1 txCommit1.2.2.1

/-- Rollback of the inner frame at transaction_level 2 (for the abort
propagation claim), starting from the same nested state. -/
def txRb : PoolState × List Ev × Conn × Option Err :=
  ConnectionPool.rollback_transaction txStep2.1 txStep2.2.1 txH2

/-- The outer frame committing after the inner rollback. -/
def txRbCommit : PoolState × List Ev × Conn × Option Err :=
  ConnectionPool.commit_transaction txRb.1 txRb.2.1 txRb.2.2.1

/-- C1: for N = 2 nested transaction_context entries followed by 2
commit_transaction calls, the code issues a real commit at BOTH calls: the
guard in commit_transaction reads the already decremented level and skips the
commit only while it is above 1, so the first call (post-decrement level 1)
already commits, and the run ends with two real commits instead of the single
final one the claim states. -/
theorem commit_two_nested_frames_issues_two_real_commits :
    txStep1.2.2 = Except.ok txH1 ∧ txStep2.2.2 = Except.ok txH2 ∧
    txH2.transaction_level = 2 ∧
    txCommit1.2.2.2 = none ∧
    countCommits txCommit1.2.1 = 1 ∧
    (txCommit1.2.2.1).transaction_level = 1 ∧
    txCommit2.2.2.2 = none ∧
    countCommits txCommit2.2.1 = 2 := by
  exact ⟨rfl, rfl, rfl, rfl, rfl, rfl, rfl, rfl⟩

/-- C2: with exactly 2 nested frames open (transaction_level 2),
rollback_transaction issues the real rollback but: it leaves the level at 1
instead of forcing it to 0, raises no TransactionAbortError (the guard reads
the already decremented level and fires only above 1, hence only from an
initial level of 3 or more), and the subsequent outer commit_transaction
succeeds and issues a real commit. -/
theorem rollback_at_level_two_raises_no_abort :
    txH2.transaction_level = 2 ∧
    countRollbacks txRb.2.1 = 1 ∧
    txRb.2.2.2 = none ∧
    (txRb.2.2.1).transaction_level = 1 ∧
    txRbCommit.2.2.2 = none ∧
    countCommits txRbCommit.2.1 = 1 := by
  exact ⟨rfl, rfl, rfl, rfl, rfl, rfl⟩

/-! ## Dead-session scenarios -/

/-- A dead session present in the active set. -/
def deadSess : Sess := { sid := 0, alive := false, allow_ping := true }

/-- The live replacement the factory builds for it. -/
def replSess : Sess := { sid := 1, alive := true, allow_ping := true }

/-- Pool holding the dead session in its active set, live factory. -/
def deadPool : PoolState :=
  { pool_size := 10, connections := [deadSess], idle_connections := [],
    pool_close := false, nextSid := 1, factoryOk := true,
    factoryAlive := true, factoryAllowPing := true }

/-- A transaction handle (one frame open) wrapping the dead session. -/
def deadHandle : Conn :=
  { conn := deadSess, closed := false, transaction_level := 1,
    is_transaction := true }

/-- Nested transaction_context entry on the handle with the dead session. -/
def nestedEnterDead : PoolState × List Ev × Except Err Conn :=
  ConnectionPool.transaction_context_enter deadPool [] (some deadHandle)

/-- C3: a nested transaction_context entry pings the session with the
DEFAULT reconnect=True (the source passes no reconnect argument), so with a
dead session and a working factory no ConnectionClosedError is raised: a
replacement session is silently created and swapped into the active set, the
ping result is discarded, and the entry succeeds with the incremented level
on the dead session. -/
theorem nested_entry_dead_session_silently_reconnects :
    nestedEnterDead.2.2 = Except.ok
      { conn := deadSess, closed := false, transaction_level := 2,
        is_transaction := true } ∧
    nestedEnterDead.1.connections = [replSess] ∧
    nestedEnterDead.1.nextSid = 2 := by
  exact ⟨rfl, rfl, rfl⟩

/-- Pool whose idle queue holds the dead session (also in the active set). -/
def idleDeadPool : PoolState :=
  { pool_size := 10, connections := [deadSess], idle_connections := [deadSess],
    pool_close := false, nextSid := 1, factoryOk := true,
    factoryAlive := true, factoryAllowPing := true }

/-- get_idle_connect on the all-dead idle queue with a working factory. -/
def idleDeadGet : PoolState × List Ev × Option Sess :=
  ConnectionPool.get_idle_connect idleDeadPool []

/-- C4: checkout from a dead idle queue with a working factory: the source
line underscore = self._ping(conn) discards the live replacement that _ping
returned after swapping it into the active set, and get_idle_connect returns
the originally popped DEAD session, which connect then wraps in the handle it
hands out. -/
theorem get_idle_connect_returns_the_dead_session :
    idleDeadGet.2.2 = some deadSess ∧
    deadSess.alive = false ∧
    idleDeadGet.1.connections = [replSess] ∧
    (ConnectionPool.connect idleDeadPool [] false).2.2 = Except.ok
      { conn := deadSess, closed := false, transaction_level := 0,
        is_transaction := false } := by
  exact ⟨rfl, rfl, rfl, rfl⟩

/-- C7: scope exit of a _Connector with an active exception while
mid-transaction. The source calls self._pool.rollback_transaction() without
the required using_conn argument, so the interpreter raises TypeError there:
no rollback is performed, self.close() is never reached (the handle stays
open and the state untouched), and the TypeError, not the original
exception, propagates. -/
theorem exit_mid_transaction_raises_typeerror (st : PoolState) (evs : List Ev)
    (c : Conn) (h : c.transaction_level > 0) :
    Connector.exitScope st evs c true = (st, evs, c, some Err.pyTypeError) := by
  simp [Connector.exitScope, Conn.in_transaction, h]

/-- Witness for C7 at a concrete mid-transaction handle. -/
theorem exit_mid_transaction_raises_typeerror_witness :
    Connector.exitScope deadPool [] deadHandle true =
      (deadPool, [], deadHandle, some Err.pyTypeError) :=
  exit_mid_transaction_raises_typeerror deadPool [] deadHandle (by decide)

/-- Attribute name used in the witnesses below. -/
def attrQuery : String := "query"

/-- C8: every forwarded attribute access on a handle whose closed flag is set
raises ConnectionClosedError in _Connector.__getattr__, before any raw
session operation can run (no forwarded session operation is produced). -/
theorem closed_handle_getattr_raises (c : Conn) (name : String)
    (h : c.closed = true) :
    Connector.getattrFwd c name = Except.error Err.connectionClosed := by
  simp [Connector.getattrFwd, h]

/-- Witness for C8 on a concrete closed handle. -/
theorem closed_handle_getattr_raises_witness :
    Connector.getattrFwd dummyConn attrQuery = Except.error Err.connectionClosed :=
  closed_handle_getattr_raises dummyConn attrQuery rfl

/-- C9: commit_transaction and rollback_transaction on a handle whose
transaction_level is 0 raise TransactionAbortError from the entry check of
_end_transaction, before any decrement, commit or rollback: the pool state,
the event log and the handle are returned unchanged. -/
theorem end_transaction_at_level_zero_aborts (st : PoolState) (evs : List Ev)
    (c : Conn) (h : c.transaction_level = 0) :
    ConnectionPool.commit_transaction st evs c = (st, evs, c, some Err.transactionAbort) ∧
    ConnectionPool.rollback_transaction st evs c = (st, evs, c, some Err.transactionAbort) := by
  constructor <;>
    simp [ConnectionPool.commit_transaction, ConnectionPool.rollback_transaction,
      ConnectionPool._end_transaction, h]

/-- Witness for C9 on a concrete level-0 handle. -/
theorem end_transaction_at_level_zero_aborts_witness :
    ConnectionPool.commit_transaction deadPool [] dummyConn =
      (deadPool, [], dummyConn, some Err.transactionAbort) ∧
    ConnectionPool.rollback_transaction deadPool [] dummyConn =
      (deadPool, [], dummyConn, some Err.transactionAbort) :=
  end_transaction_at_level_zero_aborts deadPool [] dummyConn rfl

/-- C10: after clean_pool has cleared the active set, a close on a still
checked-out non-transaction handle (whose session had been in the active set)
takes the not-a-member branch: the raw session is closed for real, close
returns True, and nothing is appended to the idle queue of the torn-down
pool, which stays empty. -/
theorem close_after_clean_pool_really_closes (st : PoolState) (evs : List Ev)
    (c : Conn) (hlv : c.transaction_level = 0) (hmem : c.conn ∈ st.connections) :
    Connector.close (ConnectionPool.clean_pool st []).1 evs c =
      ((ConnectionPool.clean_pool st []).1, evs ++ [Ev.evClose c.conn.sid],
        { c with closed := true }, some true) ∧
    ((ConnectionPool.clean_pool st []).1).idle_connections = [] := by
  constructor
  · simp [Connector.close, ConnectionPool.clean_pool, Conn.in_transaction, hlv]
  · simp [ConnectionPool.clean_pool]

/-- Witness for C10: a handle on the dead-pool session, closed after
teardown. -/
theorem close_after_clean_pool_really_closes_witness :
    Connector.close (ConnectionPool.clean_pool deadPool []).1 []
        { conn := deadSess, closed := false, transaction_level := 0,
          is_transaction := false } =
      ((ConnectionPool.clean_pool deadPool []).1, [Ev.evClose deadSess.sid],
        { conn := deadSess, closed := true, transaction_level := 0,
          is_transaction := false }, some true) ∧
    ((ConnectionPool.clean_pool deadPool []).1).idle_connections = [] :=
  close_after_clean_pool_really_closes deadPool []
    { conn := deadSess, closed := false, transaction_level := 0,
      is_transaction := false } rfl (by decide)

/-! ## Auxiliary facts about the pool operations -/

/-- The call _ping never touches the idle queue. -/
theorem ping_idle (st : PoolState) (evs : List Ev) (conn : Sess) (r : Bool) :
    (ConnectionPool._ping st evs conn r).1.idle_connections = st.idle_connections := by
  cases hA : conn.alive with
  | true => simp [ConnectionPool._ping, hA]
  | false =>
    cases r with
    | false => simp [ConnectionPool._ping, hA]
    | true =>
      cases hF : st.factoryOk with
      | false => simp [ConnectionPool._ping, ConnectionPool._create, hA, hF]
      | true =>
        by_cases hM : conn ∈ st.connections <;>
          simp [ConnectionPool._ping, ConnectionPool._create, hA, hF, hM]

/-- The call _ping never changes the capacity target. -/
theorem ping_psize (st : PoolState) (evs : List Ev) (conn : Sess) (r : Bool) :
    (ConnectionPool._ping st evs conn r).1.pool_size = st.pool_size := by
  cases hA : conn.alive with
  | true => simp [ConnectionPool._ping, hA]
  | false =>
    cases r with
    | false => simp [ConnectionPool._ping, hA]
    | true =>
      cases hF : st.factoryOk with
      | false => simp [ConnectionPool._ping, ConnectionPool._create, hA, hF]
      | true =>
        by_cases hM : conn ∈ st.connections <;>
          simp [ConnectionPool._ping, ConnectionPool._create, hA, hF, hM]

/-- The call _ping never grows the active set: the reconnect swap removes the dead
member before appending the replacement. -/
theorem ping_len (st : PoolState) (evs : List Ev) (conn : Sess) (r : Bool) :
    (ConnectionPool._ping st evs conn r).1.connections.length ≤ st.connections.length := by
  cases hA : conn.alive with
  | true => simp [ConnectionPool._ping, hA]
  | false =>
    cases r with
    | false => simp [ConnectionPool._ping, hA]
    | true =>
      cases hF : st.factoryOk with
      | false => simp [ConnectionPool._ping, ConnectionPool._create, hA, hF]
      | true =>
        by_cases hM : conn ∈ st.connections <;>
          simp [ConnectionPool._ping, ConnectionPool._create, hA, hF, hM]
        have h1 := List.length_erase_of_mem hM
        have h2 := List.length_pos_of_mem hM
        omega

/-- The call _ping never decreases the factory counter. -/
theorem ping_next (st : PoolState) (evs : List Ev) (conn : Sess) (r : Bool) :
    st.nextSid ≤ (ConnectionPool._ping st evs conn r).1.nextSid := by
  cases hA : conn.alive with
  | true => simp [ConnectionPool._ping, hA]
  | false =>
    cases r with
    | false => simp [ConnectionPool._ping, hA]
    | true =>
      cases hF : st.factoryOk with
      | false => simp [ConnectionPool._ping, ConnectionPool._create, hA, hF]
      | true =>
        by_cases hM : conn ∈ st.connections <;>
          simp [ConnectionPool._ping, ConnectionPool._create, hA, hF, hM]

/-- Every active-set member after a _ping was already active or is the fresh
replacement, whose identity stays below the new factory counter. -/
theorem ping_conn_mem (st : PoolState) (evs : List Ev) (conn : Sess) (r : Bool) :
    ∀ x ∈ (ConnectionPool._ping st evs conn r).1.connections,
      x ∈ st.connections ∨ x.sid < (ConnectionPool._ping st evs conn r).1.nextSid := by
  cases hA : conn.alive with
  | true => simp [ConnectionPool._ping, hA]; intro x hx; exact Or.inl hx
  | false =>
    cases r with
    | false => simp [ConnectionPool._ping, hA]; intro x hx; exact Or.inl hx
    | true =>
      cases hF : st.factoryOk with
      | false =>
        simp [ConnectionPool._ping, ConnectionPool._create, hA, hF]
        intro x hx; exact Or.inl hx
      | true =>
        by_cases hM : conn ∈ st.connections
        · simp [ConnectionPool._ping, ConnectionPool._create, hA, hF, hM]
          intro x hx
          rcases hx with hx | hx
          · exact Or.inl (List.mem_of_mem_erase hx)
          · subst hx; right; simp
        · simp [ConnectionPool._ping, ConnectionPool._create, hA, hF, hM]
          intro x hx; exact Or.inl hx

/-- A session returned by a successful _ping is the pinged one or the fresh
replacement. -/
theorem ping_ok (st : PoolState) (evs : List Ev) (conn : Sess) (r : Bool) :
    ∀ s, (ConnectionPool._ping st evs conn r).2.2 = Except.ok s →
      s = conn ∨ (st.nextSid ≤ s.sid ∧ s.sid < (ConnectionPool._ping st evs conn r).1.nextSid) := by
  cases hA : conn.alive with
  | true => simp [ConnectionPool._ping, hA]
  | false =>
    cases r with
    | false => simp [ConnectionPool._ping, hA]
    | true =>
      cases hF : st.factoryOk with
      | false => simp [ConnectionPool._ping, ConnectionPool._create, hA, hF]
      | true =>
        by_cases hM : conn ∈ st.connections <;>
          simp [ConnectionPool._ping, ConnectionPool._create, hA, hF, hM]

/-- State facts about the idle-reuse recursion: capacity target unchanged,
active set never grows, the idle queue only loses entries (the result is a
sublist), the factory counter never decreases, and every active session is an
old one or a replacement below the new counter. -/
theorem get_idle_go_spec (n : Nat) :
    ∀ (st : PoolState) (evs : List Ev),
      (ConnectionPool.get_idle_go n st evs).1.pool_size = st.pool_size ∧
      (ConnectionPool.get_idle_go n st evs).1.connections.length ≤ st.connections.length ∧
      (ConnectionPool.get_idle_go n st evs).1.idle_connections.Sublist st.idle_connections ∧
      st.nextSid ≤ (ConnectionPool.get_idle_go n st evs).1.nextSid ∧
      (∀ x ∈ (ConnectionPool.get_idle_go n st evs).1.connections,
        x ∈ st.connections ∨ x.sid < (ConnectionPool.get_idle_go n st evs).1.nextSid) := by
  induction n with
  | zero =>
    intro st evs
    refine ⟨rfl, le_refl _, List.Sublist.refl _, le_refl _, ?_⟩
    intro x hx; exact Or.inl hx
  | succ n ih =>
    intro st evs
    cases hI : st.idle_connections with
    | nil =>
      simp [ConnectionPool.get_idle_go, hI]
      intro x hx; exact Or.inl hx
    | cons conn rest =>
      simp only [ConnectionPool.get_idle_go, hI]
      have hpIdle := ping_idle { st with idle_connections := rest } evs conn true
      have hpSize := ping_psize { st with idle_connections := rest } evs conn true
      have hpLen := ping_len { st with idle_connections := rest } evs conn true
      have hpNext := ping_next { st with idle_connections := rest } evs conn true
      have hpMem := ping_conn_mem { st with idle_connections := rest } evs conn true
      rcases hP : ConnectionPool._ping { st with idle_connections := rest } evs conn true
        with ⟨st2, evs2, res⟩
      rw [hP] at hpIdle hpSize hpLen hpNext hpMem
      simp only at hpIdle hpSize hpLen hpNext hpMem
      cases res with
      | error e =>
        simp only
        rcases ih st2 evs2 with ⟨q1, q2, q3, q4, q5⟩
        refine ⟨by rw [q1, hpSize], le_trans q2 hpLen, ?_, le_trans hpNext q4, ?_⟩
        · exact List.Sublist.cons conn (hpIdle ▸ q3)
        · intro x hx
          rcases q5 x hx with hx2 | hx2
          · rcases hpMem x hx2 with hx3 | hx3
            · exact Or.inl hx3
            · exact Or.inr (lt_of_lt_of_le hx3 q4)
          · exact Or.inr hx2
      | ok s =>
        simp only
        refine ⟨hpSize, hpLen, ?_, hpNext, hpMem⟩
        rw [hpIdle]
        exact List.Sublist.cons conn (List.Sublist.refl rest)

/-- A session returned by the idle-reuse recursion was in the idle queue, and
when the queue has no duplicates it is gone from the remaining queue. -/
theorem get_idle_go_some (n : Nat) :
    ∀ (st : PoolState) (evs : List Ev) (conn : Sess),
      (ConnectionPool.get_idle_go n st evs).2.2 = some conn →
      conn ∈ st.idle_connections ∧
      (st.idle_connections.Nodup →
        conn ∉ (ConnectionPool.get_idle_go n st evs).1.idle_connections) := by
  induction n with
  | zero => intro st evs conn h; simp [ConnectionPool.get_idle_go] at h
  | succ n ih =>
    intro st evs conn h
    cases hI : st.idle_connections with
    | nil => simp only [ConnectionPool.get_idle_go, hI] at h; simp at h
    | cons c0 rest =>
      simp only [ConnectionPool.get_idle_go, hI] at h ⊢
      have hpIdle := ping_idle { st with idle_connections := rest } evs c0 true
      rcases hP : ConnectionPool._ping { st with idle_connections := rest } evs c0 true
        with ⟨st2, evs2, res⟩
      rw [hP] at h hpIdle
      simp only at hpIdle
      cases res with
      | error e =>
        simp only at h ⊢
        rcases ih st2 evs2 conn h with ⟨m1, m2⟩
        have m1R : conn ∈ rest := by rw [hpIdle] at m1; exact m1
        constructor
        · exact List.mem_cons_of_mem c0 m1R
        · intro hnd
          have hnd2 : st2.idle_connections.Nodup := by
            rw [hpIdle]; exact (List.nodup_cons.mp hnd).2
          exact m2 hnd2
      | ok s =>
        simp only at h ⊢
        cases h
        constructor
        · exact List.mem_cons_self conn rest
        · intro hnd
          rw [hpIdle]
          exact (List.nodup_cons.mp hnd).1

/-- State facts about one connect call: capacity target unchanged, the
capacity bound on the active set is preserved, the idle queue only loses
entries, the factory counter never decreases, and every active session is an
old one or newly built below the new counter. -/
theorem connect_spec (st : PoolState) (evs : List Ev) (it : Bool) :
    (ConnectionPool.connect st evs it).1.pool_size = st.pool_size ∧
    (st.connections.length ≤ st.pool_size →
      (ConnectionPool.connect st evs it).1.connections.length ≤ st.pool_size) ∧
    (ConnectionPool.connect st evs it).1.idle_connections.Sublist st.idle_connections ∧
    st.nextSid ≤ (ConnectionPool.connect st evs it).1.nextSid ∧
    (∀ x ∈ (ConnectionPool.connect st evs it).1.connections,
      x ∈ st.connections ∨ x.sid < (ConnectionPool.connect st evs it).1.nextSid) := by
  by_cases hE : st.idle_connections.isEmpty
  · have hNil : st.idle_connections = [] := List.isEmpty_iff.mp hE
    cases hF : st.factoryOk with
    | false =>
      simp only [ConnectionPool.connect, ConnectionPool._create, hE, hF, if_true,
        Bool.false_eq_true, if_false]
      refine ⟨by trivial, fun h => h, List.Sublist.refl _, le_refl _, ?_⟩
      intro x hx; exact Or.inl hx
    | true =>
      by_cases hL : st.connections.length < st.pool_size
      · simp only [ConnectionPool.connect, ConnectionPool._create, hE, hF, if_true, hL]
        refine ⟨by trivial, ?_, List.Sublist.refl _, Nat.le_succ _, ?_⟩
        · intro _; simp; omega
        · intro x hx
          rcases List.mem_append.mp hx with hx | hx
          · exact Or.inl hx
          · rw [List.mem_singleton.mp hx]; right; simp
      · simp only [ConnectionPool.connect, ConnectionPool._create, hE, hF, if_true, hL,
          if_false]
        refine ⟨by trivial, fun h => h, List.Sublist.refl _, Nat.le_succ _, ?_⟩
        intro x hx; exact Or.inl hx
  · have hW1 := (get_idle_go_spec st.idle_connections.length st evs).1
    have hW2 := (get_idle_go_spec st.idle_connections.length st evs).2.1
    have hW3 := (get_idle_go_spec st.idle_connections.length st evs).2.2.1
    have hW4 := (get_idle_go_spec st.idle_connections.length st evs).2.2.2.1
    have hW5 := (get_idle_go_spec st.idle_connections.length st evs).2.2.2.2
    rcases hG : ConnectionPool.get_idle_connect st evs with ⟨stM, evsM, o⟩
    rw [ConnectionPool.get_idle_connect] at hG
    rw [hG] at hW1 hW2 hW3 hW4 hW5
    simp only at hW1 hW2 hW3 hW4 hW5
    have hRed : ConnectionPool.connect st evs it =
        (match (stM, evsM, o) with
        | (st1, evs1, some conn) =>
            (st1, evs1, Except.ok
              { conn := conn, closed := false,
                transaction_level := if it then 1 else 0,
                is_transaction := it })
        | (st1, evs1, none) =>
            match ConnectionPool._create st1 with
            | (st2, Except.error e) => (st2, evs1, Except.error e)
            | (st2, Except.ok conn) =>
                let st3 :=
                  if st2.connections.length < st2.pool_size
                  then { st2 with connections := st2.connections ++ [conn] }
                  else st2
                (st3, evs1, Except.ok
                  { conn := conn, closed := false,
                    transaction_level := if it then 1 else 0,
                    is_transaction := it })) := by
      rw [ConnectionPool.connect, ConnectionPool.get_idle_connect]
      simp only [hE, if_false, Bool.false_eq_true]
      rw [hG]
    cases o with
    | some conn =>
      rw [hRed]
      simp only
      exact ⟨hW1, fun h => le_trans hW2 h, hW3, hW4, hW5⟩
    | none =>
      cases hF : stM.factoryOk with
      | false =>
        rw [hRed]
        simp only [ConnectionPool._create, hF, Bool.false_eq_true, if_false]
        exact ⟨hW1, fun h => le_trans hW2 h, hW3, hW4, hW5⟩
      | true =>
        by_cases hL : stM.connections.length < stM.pool_size
        · rw [hRed]
          simp only [ConnectionPool._create, hF, if_true, hL]
          refine ⟨hW1, ?_, hW3, le_trans hW4 (Nat.le_succ _), ?_⟩
          · intro h
            rw [hW1] at hL
            simp
            omega
          · intro x hx
            simp only [List.mem_append, List.mem_singleton] at hx
            rcases hx with hx | hx
            · rcases hW5 x hx with hx2 | hx2
              · exact Or.inl hx2
              · right; omega
            · rw [hx]; right; simp
        · rw [hRed]
          simp only [ConnectionPool._create, hF, if_true, hL, if_false]
          refine ⟨hW1, fun h => le_trans hW2 h, hW3, le_trans hW4 (Nat.le_succ _), ?_⟩
          intro x hx
          rcases hW5 x hx with hx2 | hx2
          · exact Or.inl hx2
          · right; omega

/-- Reduction of connect when the idle queue is nonempty, in terms of the
result of the idle-reuse recursion. -/
theorem connect_reduce (st : PoolState) (evs : List Ev) (it : Bool)
    (stM : PoolState) (evsM : List Ev) (o : Option Sess)
    (hE : ¬ st.idle_connections.isEmpty = true)
    (hG : ConnectionPool.get_idle_go st.idle_connections.length st evs = (stM, evsM, o)) :
    ConnectionPool.connect st evs it =
      (match (stM, evsM, o) with
      | (st1, evs1, some conn) =>
          (st1, evs1, Except.ok
            { conn := conn, closed := false,
              transaction_level := if it then 1 else 0,
              is_transaction := it })
      | (st1, evs1, none) =>
          match ConnectionPool._create st1 with
          | (st2, Except.error e) => (st2, evs1, Except.error e)
          | (st2, Except.ok conn) =>
              let st3 :=
                if st2.connections.length < st2.pool_size
                then { st2 with connections := st2.connections ++ [conn] }
                else st2
              (st3, evs1, Except.ok
                { conn := conn, closed := false,
                  transaction_level := if it then 1 else 0,
                  is_transaction := it })) := by
  rw [ConnectionPool.connect, ConnectionPool.get_idle_connect]
  simp only [hE, if_false, Bool.false_eq_true]
  rw [hG]

/-- Facts about the handle a successful connect returns: it is open, its
session comes from the idle queue or is freshly built (with identity at least
the old factory counter and below the new one), and under a duplicate-free
bounded idle queue the session is not left in the idle queue. -/
theorem connect_ok_spec (st : PoolState) (evs : List Ev) (it : Bool) (c : Conn)
    (h : (ConnectionPool.connect st evs it).2.2 = Except.ok c) :
    c.closed = false ∧
    (c.conn ∈ st.idle_connections ∨
      (st.nextSid ≤ c.conn.sid ∧ c.conn.sid < (ConnectionPool.connect st evs it).1.nextSid)) ∧
    (st.idle_connections.Nodup →
      (∀ x ∈ st.idle_connections, x.sid < st.nextSid) →
      c.conn ∉ (ConnectionPool.connect st evs it).1.idle_connections) := by
  by_cases hE : st.idle_connections.isEmpty
  · have hNil : st.idle_connections = [] := List.isEmpty_iff.mp hE
    cases hF : st.factoryOk with
    | false =>
      simp only [ConnectionPool.connect, ConnectionPool._create, hE, hF, if_true,
        Bool.false_eq_true, if_false] at h
      simp at h
    | true =>
      by_cases hL : st.connections.length < st.pool_size
      · simp only [ConnectionPool.connect, ConnectionPool._create, hE, hF, if_true, hL,
          Except.ok.injEq] at h ⊢
        subst h
        refine ⟨rfl, Or.inr ⟨le_refl _, Nat.lt_succ_self _⟩, ?_⟩
        intro _ _
        rw [hNil]
        exact List.not_mem_nil _
      · simp only [ConnectionPool.connect, ConnectionPool._create, hE, hF, if_true, hL,
          if_false, Except.ok.injEq] at h ⊢
        subst h
        refine ⟨rfl, Or.inr ⟨le_refl _, Nat.lt_succ_self _⟩, ?_⟩
        intro _ _
        rw [hNil]
        exact List.not_mem_nil _
  · rcases hG : ConnectionPool.get_idle_connect st evs with ⟨stM, evsM, o⟩
    rw [ConnectionPool.get_idle_connect] at hG
    have hW3 := (get_idle_go_spec st.idle_connections.length st evs).2.2.1
    have hW4 := (get_idle_go_spec st.idle_connections.length st evs).2.2.2.1
    rw [hG] at hW3 hW4
    simp only at hW3 hW4
    have hRed := connect_reduce st evs it stM evsM o hE hG
    cases o with
    | some conn =>
      rw [hRed] at h ⊢
      simp only [Except.ok.injEq] at h
      subst h
      have hS := get_idle_go_some st.idle_connections.length st evs conn (by rw [hG])
      refine ⟨rfl, Or.inl hS.1, ?_⟩
      intro hnd _
      simp only
      have := hS.2 hnd
      rw [hG] at this
      exact this
    | none =>
      cases hF : stM.factoryOk with
      | false =>
        rw [hRed] at h
        simp only [ConnectionPool._create, hF, Bool.false_eq_true, if_false] at h
        simp at h
      | true =>
        by_cases hL : stM.connections.length < stM.pool_size
        · rw [hRed] at h ⊢
          simp only [ConnectionPool._create, hF, if_true, hL, Except.ok.injEq] at h ⊢
          subst h
          refine ⟨rfl, Or.inr ⟨hW4, Nat.lt_succ_self _⟩, ?_⟩
          intro hnd hbd
          intro hmem
          have hmem2 := hW3.subset hmem
          have := hbd _ hmem2
          simp at this
          omega
        · rw [hRed] at h ⊢
          simp only [ConnectionPool._create, hF, if_true, hL, if_false,
            Except.ok.injEq] at h ⊢
          subst h
          refine ⟨rfl, Or.inr ⟨hW4, Nat.lt_succ_self _⟩, ?_⟩
          intro hnd hbd
          intro hmem
          have hmem2 := hW3.subset hmem
          have := hbd _ hmem2
          simp at this
          omega

/-- Basic invariant of a pool-with-handles state: the capacity target is the
configured one, the active set respects it, and every session anywhere (active
set, idle queue, any handle) has an identity below the factory counter, so a
freshly built session is distinct from all of them. It holds along EVERY
trace. -/
structure BInv (n : Nat) (s : SysState) : Prop where
  size_eq : s.pool.pool_size = n
  size_le : s.pool.connections.length ≤ n
  conn_bound : ∀ x ∈ s.pool.connections, x.sid < s.pool.nextSid
  idle_bound : ∀ x ∈ s.pool.idle_connections, x.sid < s.pool.nextSid
  handle_bound : ∀ c ∈ s.handles, c.conn.sid < s.pool.nextSid

/-- Ownership invariant: the idle queue has no duplicate sessions, no open
handle holds a session that is in the idle queue, and distinct open handles
hold distinct sessions. It holds along traces whose closes are well-formed
(okOps). -/
structure OInv (s : SysState) : Prop where
  idle_nodup : s.pool.idle_connections.Nodup
  uniq : ∀ i (hi : i < s.handles.length),
    (s.handles.get ⟨i, hi⟩).closed = false →
    (s.handles.get ⟨i, hi⟩).conn ∉ s.pool.idle_connections
  hdist : ∀ i j (hi : i < s.handles.length) (hj : j < s.handles.length),
    i ≠ j → (s.handles.get ⟨i, hi⟩).closed = false →
    (s.handles.get ⟨j, hj⟩).closed = false →
    (s.handles.get ⟨i, hi⟩).conn ≠ (s.handles.get ⟨j, hj⟩).conn

/-- The basic invariant is preserved by every trace step. -/
theorem BInv_step (n : Nat) (s : SysState) (op : Op) (hB : BInv n s) :
    BInv n (stepOp s op) := by
  cases op with
  | opConnect it fOk fAlive fAP =>
    have hsp := connect_spec (setWorld s.pool fOk fAlive fAP) [] it
    rcases hC : ConnectionPool.connect (setWorld s.pool fOk fAlive fAP) [] it
      with ⟨st1, evs1, res⟩
    rw [hC] at hsp
    obtain ⟨A1, A2, A3, A4, A5⟩ := hsp
    simp only at A1 A2 A3 A4 A5
    have hw1 : (setWorld s.pool fOk fAlive fAP).pool_size = s.pool.pool_size := rfl
    have hw2 : (setWorld s.pool fOk fAlive fAP).connections = s.pool.connections := rfl
    have hw3 : (setWorld s.pool fOk fAlive fAP).idle_connections = s.pool.idle_connections := rfl
    have hw4 : (setWorld s.pool fOk fAlive fAP).nextSid = s.pool.nextSid := rfl
    rw [hw1] at A1 A2
    rw [hw2] at A2 A5
    rw [hw3] at A3
    rw [hw4] at A4
    cases res with
    | ok c =>
      have hok := connect_ok_spec (setWorld s.pool fOk fAlive fAP) [] it c (by rw [hC])
      rw [hC] at hok
      obtain ⟨B1, B2, B3⟩ := hok
      simp only at B1 B2 B3
      rw [hw3, hw4] at B2
      simp only [stepOp, hC]
      constructor
      · rw [A1, hB.size_eq]
      · rw [← hB.size_eq]
        exact A2 (by rw [hB.size_eq]; exact hB.size_le)
      · intro x hx
        rcases A5 x hx with hx2 | hx2
        · exact lt_of_lt_of_le (hB.conn_bound x hx2) A4
        · exact hx2
      · intro x hx
        exact lt_of_lt_of_le (hB.idle_bound x (A3.subset hx)) A4
      · intro c2 hc2
        rcases List.mem_append.mp hc2 with hc2 | hc2
        · exact lt_of_lt_of_le (hB.handle_bound c2 hc2) A4
        · rw [List.mem_singleton.mp hc2]
          rcases B2 with hb | hb
          · exact lt_of_lt_of_le (hB.idle_bound _ hb) A4
          · exact hb.2
    | error e =>
      simp only [stepOp, hC]
      constructor
      · rw [A1, hB.size_eq]
      · rw [← hB.size_eq]
        exact A2 (by rw [hB.size_eq]; exact hB.size_le)
      · intro x hx
        rcases A5 x hx with hx2 | hx2
        · exact lt_of_lt_of_le (hB.conn_bound x hx2) A4
        · exact hx2
      · intro x hx
        exact lt_of_lt_of_le (hB.idle_bound x (A3.subset hx)) A4
      · intro c2 hc2
        exact lt_of_lt_of_le (hB.handle_bound c2 hc2) A4
  | opClose i =>
    cases hH : s.handles.get? i with
    | none => simp only [stepOp, hH]; exact hB
    | some c =>
      have hcm : c ∈ s.handles := List.get?_mem hH
      by_cases hT : c.in_transaction
      · have hCl : Connector.close s.pool [] c = (s.pool, [], c, none) := by
          simp [Connector.close, hT]
        simp only [stepOp, hH, hCl]
        constructor
        · exact hB.size_eq
        · exact hB.size_le
        · exact hB.conn_bound
        · exact hB.idle_bound
        · intro c2 hc2
          rcases List.mem_or_eq_of_mem_set hc2 with hc2 | hc2
          · exact hB.handle_bound c2 hc2
          · rw [hc2]; exact hB.handle_bound c hcm
      · by_cases hM : c.conn ∈ s.pool.connections
        · have hCl : Connector.close s.pool [] c =
              ({ s.pool with idle_connections := s.pool.idle_connections ++ [c.conn] },
                [], { c with closed := true }, some false) := by
            simp [Connector.close, hT, hM]
          simp only [stepOp, hH, hCl]
          constructor
          · exact hB.size_eq
          · exact hB.size_le
          · exact hB.conn_bound
          · intro x hx
            rcases List.mem_append.mp hx with hx | hx
            · exact hB.idle_bound x hx
            · rw [List.mem_singleton.mp hx]
              exact hB.handle_bound c hcm
          · intro c2 hc2
            rcases List.mem_or_eq_of_mem_set hc2 with hc2 | hc2
            · exact hB.handle_bound c2 hc2
            · rw [hc2]; exact hB.handle_bound c hcm
        · have hCl : Connector.close s.pool [] c =
              (s.pool, [Ev.evClose c.conn.sid], { c with closed := true }, some true) := by
            simp [Connector.close, hT, hM]
          simp only [stepOp, hH, hCl]
          constructor
          · exact hB.size_eq
          · exact hB.size_le
          · exact hB.conn_bound
          · exact hB.idle_bound
          · intro c2 hc2
            rcases List.mem_or_eq_of_mem_set hc2 with hc2 | hc2
            · exact hB.handle_bound c2 hc2
            · rw [hc2]; exact hB.handle_bound c hcm
  | opPing sess r fOk fAlive fAP =>
    have hpS := ping_psize (setWorld s.pool fOk fAlive fAP) [] sess r
    have hpL := ping_len (setWorld s.pool fOk fAlive fAP) [] sess r
    have hpI := ping_idle (setWorld s.pool fOk fAlive fAP) [] sess r
    have hpN := ping_next (setWorld s.pool fOk fAlive fAP) [] sess r
    have hpM := ping_conn_mem (setWorld s.pool fOk fAlive fAP) [] sess r
    rcases hP : ConnectionPool._ping (setWorld s.pool fOk fAlive fAP) [] sess r
      with ⟨st1, evs1, res⟩
    rw [hP] at hpS hpL hpI hpN hpM
    simp only at hpS hpL hpI hpN hpM
    simp only [stepOp, hP]
    constructor
    · rw [hpS]; exact hB.size_eq
    · exact le_trans hpL hB.size_le
    · intro x hx
      rcases hpM x hx with hx2 | hx2
      · exact lt_of_lt_of_le (hB.conn_bound x hx2) hpN
      · exact hx2
    · intro x hx
      rw [hpI] at hx
      exact lt_of_lt_of_le (hB.idle_bound x hx) hpN
    · intro c2 hc2
      exact lt_of_lt_of_le (hB.handle_bound c2 hc2) hpN
  | opClean =>
    simp only [stepOp, ConnectionPool.clean_pool]
    constructor
    · exact hB.size_eq
    · simp
    · intro x hx; simp at hx
    · intro x hx; simp at hx
    · exact hB.handle_bound

/-- The basic invariant holds in the initial state. -/
theorem BInv_init (n : Nat) : BInv n (initSys n) := by
  constructor <;> simp [initSys]

/-- The basic invariant holds after every trace. -/
theorem BInv_run (n : Nat) (ops : List Op) :
    ∀ s : SysState, BInv n s → BInv n (runOps s ops) := by
  induction ops with
  | nil => intro s hB; exact hB
  | cons op ops ih => intro s hB; exact ih _ (BInv_step n s op hB)

/-- Indexing a one-element extension below the old length. -/
theorem get_append_left_aux {α : Type} (l : List α) (a : α) (i : Nat)
    (h : i < l.length) (h2 : i < (l ++ [a]).length) :
    (l ++ [a]).get ⟨i, h2⟩ = l.get ⟨i, h⟩ := by
  simp [List.get_eq_getElem]
  exact List.getElem_append_left h

/-- Indexing a one-element extension at the old length. -/
theorem get_append_last_aux {α : Type} (l : List α) (a : α)
    (h2 : l.length < (l ++ [a]).length) :
    (l ++ [a]).get ⟨l.length, h2⟩ = a := by
  simp [List.get_eq_getElem]

/-- Indexing an update at the updated position. -/
theorem get_set_self_aux {α : Type} (l : List α) (i : Nat) (a : α)
    (hi : i < (l.set i a).length) : (l.set i a).get ⟨i, hi⟩ = a := by
  simp [List.get_eq_getElem]

/-- Indexing an update away from the updated position. -/
theorem get_set_other_aux {α : Type} (l : List α) (i j : Nat) (a : α)
    (hij : i ≠ j) (hj : j < (l.set i a).length) (hj2 : j < l.length) :
    (l.set i a).get ⟨j, hj⟩ = l.get ⟨j, hj2⟩ := by
  simp [List.get_eq_getElem]
  exact List.getElem_set_ne hij _

/-- The ownership invariant is preserved by every well-formed trace step. -/
theorem OInv_step (n : Nat) (s : SysState) (op : Op) (hB : BInv n s) (hO : OInv s)
    (hok : okClose s op = true) : OInv (stepOp s op) := by
  cases op with
  | opConnect it fOk fAlive fAP =>
    have hsp := connect_spec (setWorld s.pool fOk fAlive fAP) [] it
    rcases hC : ConnectionPool.connect (setWorld s.pool fOk fAlive fAP) [] it
      with ⟨st1, evs1, res⟩
    rw [hC] at hsp
    obtain ⟨A1, A2, A3, A4, A5⟩ := hsp
    simp only at A1 A2 A3 A4 A5
    have hw3 : (setWorld s.pool fOk fAlive fAP).idle_connections = s.pool.idle_connections := rfl
    have hw4 : (setWorld s.pool fOk fAlive fAP).nextSid = s.pool.nextSid := rfl
    rw [hw3] at A3
    rw [hw4] at A4
    cases res with
    | ok c =>
      have hocs := connect_ok_spec (setWorld s.pool fOk fAlive fAP) [] it c (by rw [hC])
      rw [hC] at hocs
      obtain ⟨B1, B2, B3⟩ := hocs
      simp only at B1 B2 B3
      rw [hw3, hw4] at B2
      rw [hw3, hw4] at B3
      have hnotin : c.conn ∉ st1.idle_connections :=
        B3 hO.idle_nodup hB.idle_bound
      simp only [stepOp, hC]
      constructor
      · exact List.Nodup.sublist A3 hO.idle_nodup
      · intro i hi hopen
        by_cases hlt : i < s.handles.length
        · rw [get_append_left_aux s.handles c i hlt hi] at hopen ⊢
          intro hmem
          exact hO.uniq i hlt hopen (A3.subset hmem)
        · have hieq : i = s.handles.length := by
            simp only [List.length_append, List.length_singleton] at hi
            omega
          subst hieq
          rw [get_append_last_aux s.handles c hi]
          exact hnotin
      · intro i j hi hj hne hoi hoj
        by_cases hlt_i : i < s.handles.length <;> by_cases hlt_j : j < s.handles.length
        · rw [get_append_left_aux s.handles c i hlt_i hi] at hoi ⊢
          rw [get_append_left_aux s.handles c j hlt_j hj] at hoj ⊢
          exact hO.hdist i j hlt_i hlt_j hne hoi hoj
        · have hjeq : j = s.handles.length := by
            simp only [List.length_append, List.length_singleton] at hj
            omega
          subst hjeq
          rw [get_append_left_aux s.handles c i hlt_i hi] at hoi ⊢
          rw [get_append_last_aux s.handles c hj]
          rcases B2 with hb | hb
          · intro heq
            exact hO.uniq i hlt_i hoi (heq ▸ hb)
          · intro heq
            have h1 := hB.handle_bound _ (List.get_mem s.handles i hlt_i)
            rw [heq] at h1
            omega
        · have hieq : i = s.handles.length := by
            simp only [List.length_append, List.length_singleton] at hi
            omega
          subst hieq
          rw [get_append_last_aux s.handles c hi]
          rw [get_append_left_aux s.handles c j hlt_j hj] at hoj ⊢
          rcases B2 with hb | hb
          · intro heq
            exact hO.uniq j hlt_j hoj (heq ▸ hb)
          · intro heq
            have h1 := hB.handle_bound _ (List.get_mem s.handles j hlt_j)
            rw [← heq] at h1
            omega
        · exfalso
          have hieq : i = s.handles.length := by
            simp only [List.length_append, List.length_singleton] at hi
            omega
          have hjeq : j = s.handles.length := by
            simp only [List.length_append, List.length_singleton] at hj
            omega
          exact hne (hieq.trans hjeq.symm)
    | error e =>
      simp only [stepOp, hC]
      constructor
      · exact List.Nodup.sublist A3 hO.idle_nodup
      · intro i hi hopen
        intro hmem
        exact hO.uniq i hi hopen (A3.subset hmem)
      · intro i j hi hj hne hoi hoj
        exact hO.hdist i j hi hj hne hoi hoj
  | opClose i =>
    cases hH : s.handles.get? i with
    | none =>
      simp only [okClose] at hok
      rw [hH] at hok
      simp at hok
    | some c =>
      have hcO : c.closed = false := by
        simp only [okClose] at hok
        rw [hH] at hok
        simp at hok
        exact hok
      obtain ⟨hlen, hgc⟩ := List.get?_eq_some.mp hH
      have hopen_i : (s.handles.get ⟨i, hlen⟩).closed = false := by rw [hgc]; exact hcO
      have hnotin : c.conn ∉ s.pool.idle_connections := by
        have := hO.uniq i hlen hopen_i
        rw [hgc] at this
        exact this
      by_cases hT : c.in_transaction
      · have hCl : Connector.close s.pool [] c = (s.pool, [], c, none) := by
          simp [Connector.close, hT]
        simp only [stepOp, hH, hCl]
        have hget : ∀ j (hj : j < (s.handles.set i c).length),
            (s.handles.set i c).get ⟨j, hj⟩ =
            s.handles.get ⟨j, by rw [List.length_set] at hj; exact hj⟩ := by
          intro j hj
          by_cases hij : i = j
          · subst hij
            rw [get_set_self_aux s.handles i c hj]
            exact hgc.symm
          · exact get_set_other_aux s.handles i j c hij hj
              (by rw [List.length_set] at hj; exact hj)
        constructor
        · exact hO.idle_nodup
        · intro j hj hopen
          rw [hget j hj] at hopen ⊢
          exact hO.uniq j _ hopen
        · intro j k hj hk hne hoj hok2
          rw [hget j hj] at hoj ⊢
          rw [hget k hk] at hok2 ⊢
          exact hO.hdist j k _ _ hne hoj hok2
      · by_cases hM : c.conn ∈ s.pool.connections
        · have hCl : Connector.close s.pool [] c =
              ({ s.pool with idle_connections := s.pool.idle_connections ++ [c.conn] },
                [], { c with closed := true }, some false) := by
            simp [Connector.close, hT, hM]
          simp only [stepOp, hH, hCl]
          constructor
          · rw [List.nodup_append]
            refine ⟨hO.idle_nodup, by simp, ?_⟩
            rw [List.disjoint_singleton]
            exact hnotin
          · intro j hj hopen
            by_cases hij : i = j
            · subst hij
              rw [get_set_self_aux s.handles i _ hj] at hopen
              simp at hopen
            · have hj2 : j < s.handles.length := by
                rw [List.length_set] at hj; exact hj
              rw [get_set_other_aux s.handles i j _ hij hj hj2] at hopen ⊢
              intro hmem
              rcases List.mem_append.mp hmem with hmem | hmem
              · exact hO.uniq j hj2 hopen hmem
              · have hne2 : j ≠ i := fun h => hij h.symm
                have := hO.hdist j i hj2 hlen hne2 hopen hopen_i
                rw [hgc] at this
                exact this (List.mem_singleton.mp hmem)
          · intro j k hj hk hne hoj hok2
            by_cases hij : i = j
            · subst hij
              rw [get_set_self_aux s.handles i _ hj] at hoj
              simp at hoj
            · by_cases hik : i = k
              · subst hik
                rw [get_set_self_aux s.handles i _ hk] at hok2
                simp at hok2
              · have hj2 : j < s.handles.length := by
                  rw [List.length_set] at hj; exact hj
                have hk2 : k < s.handles.length := by
                  rw [List.length_set] at hk; exact hk
                rw [get_set_other_aux s.handles i j _ hij hj hj2] at hoj ⊢
                rw [get_set_other_aux s.handles i k _ hik hk hk2] at hok2 ⊢
                exact hO.hdist j k hj2 hk2 hne hoj hok2
        · have hCl : Connector.close s.pool [] c =
              (s.pool, [Ev.evClose c.conn.sid], { c with closed := true }, some true) := by
            simp [Connector.close, hT, hM]
          simp only [stepOp, hH, hCl]
          constructor
          · exact hO.idle_nodup
          · intro j hj hopen
            by_cases hij : i = j
            · subst hij
              rw [get_set_self_aux s.handles i _ hj] at hopen
              simp at hopen
            · have hj2 : j < s.handles.length := by
                rw [List.length_set] at hj; exact hj
              rw [get_set_other_aux s.handles i j _ hij hj hj2] at hopen ⊢
              exact hO.uniq j hj2 hopen
          · intro j k hj hk hne hoj hok2
            by_cases hij : i = j
            · subst hij
              rw [get_set_self_aux s.handles i _ hj] at hoj
              simp at hoj
            · by_cases hik : i = k
              · subst hik
                rw [get_set_self_aux s.handles i _ hk] at hok2
                simp at hok2
              · have hj2 : j < s.handles.length := by
                  rw [List.length_set] at hj; exact hj
                have hk2 : k < s.handles.length := by
                  rw [List.length_set] at hk; exact hk
                rw [get_set_other_aux s.handles i j _ hij hj hj2] at hoj ⊢
                rw [get_set_other_aux s.handles i k _ hik hk hk2] at hok2 ⊢
                exact hO.hdist j k hj2 hk2 hne hoj hok2
  | opPing sess r fOk fAlive fAP =>
    have hpI := ping_idle (setWorld s.pool fOk fAlive fAP) [] sess r
    rcases hP : ConnectionPool._ping (setWorld s.pool fOk fAlive fAP) [] sess r
      with ⟨st1, evs1, res⟩
    rw [hP] at hpI
    simp only at hpI
    have hw3 : (setWorld s.pool fOk fAlive fAP).idle_connections = s.pool.idle_connections := rfl
    rw [hw3] at hpI
    simp only [stepOp, hP]
    constructor
    · rw [hpI]; exact hO.idle_nodup
    · intro j hj hopen
      rw [hpI]
      exact hO.uniq j hj hopen
    · intro j k hj hk hne hoj hok2
      exact hO.hdist j k hj hk hne hoj hok2
  | opClean =>
    simp only [stepOp, ConnectionPool.clean_pool]
    constructor
    · simp
    · intro j hj hopen
      simp
    · intro j k hj hk hne hoj hok2
      exact hO.hdist j k hj hk hne hoj hok2

/-- The ownership invariant holds in the initial state. -/
theorem OInv_init (n : Nat) : OInv (initSys n) := by
  constructor
  · simp [initSys]
  · intro i hi
    simp [initSys] at hi
  · intro i j hi hj
    simp [initSys] at hi

/-- Both invariants hold after every well-formed trace. -/
theorem Inv_run (n : Nat) (ops : List Op) :
    ∀ s : SysState, BInv n s → OInv s → okOps s ops = true →
      OInv (runOps s ops) := by
  induction ops with
  | nil => intro s _ hO _; exact hO
  | cons op ops ih =>
    intro s hB hO hok
    simp only [okOps, Bool.and_eq_true] at hok
    exact ih _ (BInv_step n s op hB) (OInv_step n s op hB hO hok.1) hok.2

/-- A checkout at capacity succeeds as an overflow: with a working factory,
connect returns an open handle whose session is NOT added to the active set,
and the active set is unchanged. -/
def connectOverflowOk (st : PoolState) : Prop :=
  match ConnectionPool.connect { st with factoryOk := true } [] false with
  | (st1, _, Except.ok c) =>
      st1.connections = st.connections ∧ c.conn ∉ st.connections ∧ c.closed = false
  | (_, _, Except.error _) => False

/-- Overflow behavior of connect at capacity with an empty idle queue, for
any pool whose active sessions are below the factory counter. -/
theorem connect_overflow (st : PoolState) (hidle : st.idle_connections = [])
    (hcap : st.connections.length = st.pool_size)
    (hbd : ∀ x ∈ st.connections, x.sid < st.nextSid) :
    connectOverflowOk st := by
  have hE : ({ st with factoryOk := true } : PoolState).idle_connections.isEmpty = true := by
    simp [hidle]
  have hL : ¬ (({ st with factoryOk := true } : PoolState).connections.length <
      ({ st with factoryOk := true } : PoolState).pool_size) := by
    simp [hcap]
  unfold connectOverflowOk
  simp only [ConnectionPool.connect, ConnectionPool._create, hE, if_true, hL, if_false]
  refine ⟨by trivial, ?_, by trivial⟩
  intro hmem
  have := hbd _ hmem
  simp at this

/-- C6: along every trace of connect, close, _ping and clean_pool operations
on a freshly built pool of capacity n, the active set never exceeds n
sessions; moreover whenever the active set is at capacity (and the idle queue
is empty, so a fresh session is needed), a further checkout still succeeds,
handing out an overflow handle whose session is not added to the unchanged
active set. -/
theorem capacity_soft_bound (n : Nat) (ops : List Op) :
    (runOps (initSys n) ops).pool.connections.length ≤ n ∧
    ((runOps (initSys n) ops).pool.connections.length = n →
      (runOps (initSys n) ops).pool.idle_connections = [] →
      connectOverflowOk (runOps (initSys n) ops).pool) := by
  have hB := BInv_run n ops (initSys n) (BInv_init n)
  refine ⟨hB.size_le, ?_⟩
  intro hlen hidle
  exact connect_overflow _ hidle (by rw [hlen, hB.size_eq]) hB.conn_bound

/-- Trace driving a capacity-1 pool to capacity and beyond. -/
def capWitnessOps : List Op :=
  [Op.opConnect false true true true, Op.opConnect false true true true]

/-- Witness for C6: after two checkouts on a capacity-1 pool the active set
is at capacity and a further checkout overflows. -/
theorem capacity_soft_bound_witness :
    (runOps (initSys 1) capWitnessOps).pool.connections.length ≤ 1 ∧
    connectOverflowOk (runOps (initSys 1) capWitnessOps).pool :=
  ⟨(capacity_soft_bound 1 capWitnessOps).1,
    (capacity_soft_bound 1 capWitnessOps).2 (by decide) (by decide)⟩

/-- C5 (amended): along every trace of the pool operations in which close is
only invoked on handles that are not yet closed, a session held by an open
handle is never simultaneously present in the idle queue. -/
theorem ownership_uniqueness (n : Nat) (ops : List Op)
    (hok : okOps (initSys n) ops = true) :
    ∀ i c, (runOps (initSys n) ops).handles.get? i = some c →
      c.closed = false →
      c.conn ∉ (runOps (initSys n) ops).pool.idle_connections := by
  intro i c hget hopen
  have hO := Inv_run n ops (initSys n) (BInv_init n) (OInv_init n) hok
  obtain ⟨hlen, hgc⟩ := List.get?_eq_some.mp hget
  have hres := hO.uniq i hlen (by rw [hgc]; exact hopen)
  rw [hgc] at hres
  exact hres

/-- Trace with a double close: checkout, close the handle twice, checkout
again. The second close appends the same session to the idle queue a second
time, and the final checkout pops only one copy. -/
def doubleCloseOps : List Op :=
  [Op.opConnect false true true true, Op.opClose 0, Op.opClose 0,
   Op.opConnect false true true true]

/-- Counterexample to C5 as stated: after the double-close trace the second
handle is open and wraps session 0, while session 0 is still present in the
idle queue — the same raw session has two owners. -/
theorem double_close_breaks_ownership :
    (runOps (initSys 1) doubleCloseOps).handles.get? 1 = some
      { conn := { sid := 0, alive := true, allow_ping := true }, closed := false,
        transaction_level := 0, is_transaction := false } ∧
    ({ sid := 0, alive := true, allow_ping := true } : Sess) ∈
      (runOps (initSys 1) doubleCloseOps).pool.idle_connections := by
  decide

/-- Single-checkout trace for the ownership witness. -/
def singleCloseOps : List Op := [Op.opConnect false true true true]

/-- Witness for C5 (amended) on a concrete well-formed trace. -/
theorem ownership_uniqueness_witness :
    ({ sid := 0, alive := true, allow_ping := true } : Sess) ∉
      (runOps (initSys 1) singleCloseOps).pool.idle_connections :=
  ownership_uniqueness 1 singleCloseOps (by decide) 0
    { conn := { sid := 0, alive := true, allow_ping := true }, closed := false,
      transaction_level := 0, is_transaction := false } (by decide) rfl
